import Mathlib

/-!
Verification development for the ERA5 data-processor merge engine
(`conbine.py`).  The Python source is shallowly embedded: filenames are
`String`s (we work on the stem, i.e. the basename with the `.nc`
extension removed, exactly what `Path.stem` hands to the Python code),
NetCDF datasets become lists of named arrays, and the stateful
`merge_data` procedure becomes a pure function from an explicit input
description (file lists, time bounds, an I/O oracle for write success)
to an explicit result record.
-/

namespace Conbine

/-- Python `str.isdigit` restricted to ASCII decimal digits, on a char list:
true iff the list is nonempty and all elements are digits.  (The filenames
involved are ASCII.) -/
def isdigitL (cs : List Char) : Bool :=
  !cs.isEmpty && cs.all Char.isDigit

/-- Token test used by `extract_datetime_from_filename`: an 8-digit date
token (`len(part) == 8 and part.isdigit()`). -/
def is8Digit (cs : List Char) : Bool :=
  cs.length == 8 && isdigitL cs

/-- Token test used by `extract_datetime_from_filename`: a 4-digit time
token (`len(part) == 4 and part.isdigit()`). -/
def is4Digit (cs : List Char) : Bool :=
  cs.length == 4 && isdigitL cs

/-- Python `name.split('_')` on a char list: split on every underscore,
keeping empty tokens, so the result always has at least one element. -/
def splitU : List Char → List (List Char)
  | [] => [[]]
  | c :: rest =>
    if c = '_' then [] :: splitU rest
    else
      match splitU rest with
      | [] => [[c]]
      | t :: ts => (c :: t) :: ts

/-- One step of the token scan in `extract_datetime_from_filename`:
remember an 8-digit token as the date part, else a 4-digit token as the
time part (later tokens overwrite earlier ones). -/
def scanTok (acc : Option (List Char) × Option (List Char)) (p : List Char) :
    Option (List Char) × Option (List Char) :=
  if is8Digit p then (some p, acc.2)
  else if is4Digit p then (acc.1, some p)
  else acc

/-- Pure core of `extract_datetime_from_filename`, on the char list of the
filename stem.  Mirrors the Python loop: scan the underscore-separated
tokens, remembering the last 8-digit token as the date and the last 4-digit
token as the time; if both were found return `date ++ "_" ++ time`,
otherwise strip a trailing `_pl`/`_sl`/`_tp` kind suffix if present,
otherwise return the stem unchanged. -/
def extractKey (name : List Char) : List Char :=
  let parts := splitU name
  let found := parts.foldl scanTok (none, none)
  match found with
  | (some d, some t) => d ++ '_' :: t
  | _ =>
    if ['_', 'p', 'l'].isSuffixOf name
        || ['_', 's', 'l'].isSuffixOf name
        || ['_', 't', 'p'].isSuffixOf name then
      List.intercalate ['_'] parts.dropLast
    else
      name

/-- Embedding of `extract_datetime_from_filename` from `conbine.py`,
taking the filename stem (the Python code receives a `Path` and uses
`.stem`). -/
def extract_datetime_from_filename (stem : String) : String :=
  ⟨extractKey stem.toList⟩

/-- A parsed calendar date-time, the embedding of the Python `datetime`
values produced by `datetime.strptime`.  Comparison of valid values is
field-lexicographic, matching `datetime` ordering. -/
structure DateTime where
  year : Nat
  month : Nat
  day : Nat
  hour : Nat
  minute : Nat
deriving DecidableEq, Repr

/-- Lexicographic linearization of a `DateTime`.  For values built by the
parsers below every field after the year is below 100, so `Nat` order on
the linearization coincides with Python's field-lexicographic `datetime`
order. -/
def DateTime.lin (dt : DateTime) : Nat :=
  (((dt.year * 100 + dt.month) * 100 + dt.day) * 100 + dt.hour) * 100 + dt.minute

/-- Gregorian leap-year test, as validated by the Python `datetime`
constructor. -/
def isLeap (y : Nat) : Bool :=
  (y % 4 == 0 && y % 100 != 0) || y % 400 == 0

/-- Number of days in a month, as validated by the Python `datetime`
constructor. -/
def daysInMonth (y m : Nat) : Nat :=
  if m == 2 then (if isLeap y then 29 else 28)
  else if m == 4 || m == 6 || m == 9 || m == 11 then 30
  else 31

/-- Range validation performed by the Python `datetime` constructor after
`strptime` field matching (year 1..9999, month 1..12, day within the
month, hour below 24, minute below 60). -/
def mkDateTime (y m d h n : Nat) : Option DateTime :=
  if 1 ≤ y ∧ y ≤ 9999 ∧ 1 ≤ m ∧ m ≤ 12 ∧ 1 ≤ d ∧ d ≤ daysInMonth y m
      ∧ h < 24 ∧ n < 60 then
    some ⟨y, m, d, h, n⟩
  else
    none

/-- Numeric value of a decimal digit character. -/
def digitVal (c : Char) : Nat := c.toNat - 48

/-- Value of two decimal digit characters. -/
def val2 (a b : Char) : Nat := digitVal a * 10 + digitVal b

/-- Value of four decimal digit characters. -/
def val4 (a b c d : Char) : Nat := ((digitVal a * 10 + digitVal b) * 10 + digitVal c) * 10 + digitVal d

/-- Embedding of `parse_datetime_string` from `conbine.py`:
`datetime.strptime(s, "%Y%m%d_%H%M")` with a `"%Y%m%d_%H00"` fallback,
returning `none` when both fail.  The fallback accepts no string the
first format rejects (it only pins the minute field to the literal `00`),
so the embedding is the first format alone.  Fields are modelled at their
zero-padded widths (4-2-2 digits, `'_'`, 2-2 digits), the shape of every
canonical `YYYYMMDD_HHMM` key; Python's `strptime` additionally tolerates
non-padded month/day/hour/minute fields, which no canonical key uses. -/
def parse_datetime_string (s : String) : Option DateTime :=
  match s.toList with
  | [y1, y2, y3, y4, m1, m2, d1, d2, u, h1, h2, n1, n2] =>
    if u = '_' ∧ ([y1, y2, y3, y4, m1, m2, d1, d2, h1, h2, n1, n2].all Char.isDigit) then
      mkDateTime (val4 y1 y2 y3 y4) (val2 m1 m2) (val2 d1 d2) (val2 h1 h2) (val2 n1 n2)
    else
      none
  | _ => none

/-- Embedding of the inline start/end-bound parsing in `merge_data`:
first `datetime.strptime(s, "%Y-%m-%d %H:%M")`, then
`datetime.strptime(s, "%Y%m%d_%H%M")`, else failure (which aborts the
run).  Widths are modelled zero-padded as in `parse_datetime_string`. -/
def parse_time_bound (s : String) : Option DateTime :=
  match s.toList with
  | [y1, y2, y3, y4, s1, m1, m2, s2, d1, d2, s3, h1, h2, s4, n1, n2] =>
    if s1 = '-' ∧ s2 = '-' ∧ s3 = ' ' ∧ s4 = ':'
        ∧ ([y1, y2, y3, y4, m1, m2, d1, d2, h1, h2, n1, n2].all Char.isDigit) then
      mkDateTime (val4 y1 y2 y3 y4) (val2 m1 m2) (val2 d1 d2) (val2 h1 h2) (val2 n1 n2)
    else
      parse_datetime_string s
  | _ => parse_datetime_string s

/-- A NumPy array: a shape together with row-major flattened data.  Values
are modelled as integers (nothing in the merge logic inspects a value). -/
structure NdArray where
  shape : List Nat
  data : List Int
deriving DecidableEq, Repr

/-- NumPy `arr.ndim`. -/
def NdArray.ndim (a : NdArray) : Nat := a.shape.length

/-- NumPy `arr.squeeze(0)`: drops the leading axis when it has extent 1
and raises `ValueError` (here `none`) otherwise, including on a 0-d
array. -/
def NdArray.squeeze0 (a : NdArray) : Option NdArray :=
  match a.shape with
  | 1 :: rest => some ⟨rest, a.data⟩
  | _ => none

/-- NumPy `arr[i]` on the leading axis (callers index within
`range(arr.shape[0])`, so the access is in bounds). -/
def NdArray.index0 (a : NdArray) (i : Nat) : NdArray :=
  ⟨a.shape.tail, (a.data.drop (i * a.shape.tail.prod)).take a.shape.tail.prod⟩

/-- An xarray dataset as the merge engine sees it: the ordered
`data_vars` mapping plus the `latitude` and `longitude` coordinate
arrays. -/
structure NcDataset where
  vars : List (String × NdArray)
  latitude : List Int
  longitude : List Int
deriving DecidableEq, Repr

/-- An on-disk NetCDF input file: its stem (basename without the `.nc`
extension) and contents, plus an oracle flag telling whether
`xr.open_dataset` on it succeeds (`false` models an I/O failure). -/
structure InputFile where
  stem : String
  ds : NcDataset
  openOk : Bool := true
deriving DecidableEq, Repr

/-- The hardcoded standard pressure levels (hPa) from `merge_data`. -/
def pressure_levels : List Nat :=
  [50, 100, 150, 200, 250, 300, 400, 500, 600, 700, 850, 925, 1000]

/-- Exceptions the embedded merge can raise while processing one group. -/
inductive PyErr where
  | indexError
  | valueError
  | ioError
deriving DecidableEq, Repr

/-- Accumulator pair `(all_data, var_names)` built by the flatten step. -/
abbrev FlatAcc := List NdArray × List String

/-- Inner loop of the pressure-level branch of `merge_data`:
`for level_idx in range(data.shape[0])` over the squeezed array `d`,
appending the level slice to `all_data` and then the synthesized name
`f"{var}{pressure_levels[level_idx]}"` to `var_names`.  The name lookup
raises `IndexError` when the level count exceeds the 13 hardcoded
pressure levels (the slice append precedes the failing lookup, exactly as
in the source, though the partial accumulator is discarded by the
per-group handler). -/
def levelLoop (v : String) (d : NdArray) (acc : FlatAcc) : List Nat → Except PyErr FlatAcc
  | [] => .ok acc
  | i :: rest =>
    let ad := acc.1 ++ [d.index0 i]
    match pressure_levels.get? i with
    | none => .error .indexError
    | some p => levelLoop v d (ad, acc.2 ++ [v ++ toString p]) rest

/-- Pressure-level branch of the flatten step for one variable: only a
4-D array is squeezed and split per level; a variable of any other
dimensionality is skipped entirely (the appends sit inside the
`if data.ndim == 4` block in the source). -/
def flattenPlVar (v : String) (a : NdArray) (acc : FlatAcc) : Except PyErr FlatAcc :=
  if a.ndim == 4 then
    match a.squeeze0 with
    | none => .error .valueError
    | some d => levelLoop v d acc (List.range (d.shape.headD 0))
  else
    .ok acc

/-- Surface-level / precipitation branch of the flatten step for one
variable: a 3-D array has its leading time axis squeezed away, anything
else is appended unchanged; either way the raw variable name is kept. -/
def flattenSurfVar (v : String) (a : NdArray) (acc : FlatAcc) : Except PyErr FlatAcc :=
  if a.ndim == 3 then
    match a.squeeze0 with
    | none => .error .valueError
    | some d => .ok (acc.1 ++ [d], acc.2 ++ [v])
  else
    .ok (acc.1 ++ [a], acc.2 ++ [v])

/-- Fold of a per-variable flatten step over the variables of one source
dataset, stopping at the first exception. -/
def varsLoop (step : String → NdArray → FlatAcc → Except PyErr FlatAcc)
    (acc : FlatAcc) : List (String × NdArray) → Except PyErr FlatAcc
  | [] => .ok acc
  | (v, a) :: rest =>
    match step v a acc with
    | .error e => .error e
    | .ok acc2 => varsLoop step acc2 rest

/-- The flat names synthesized from a pressure-level variable list:
for each source variable in order, one name `{variable}{pressure_hPa}` per
entry of the fixed pressure-level list, in level order. -/
def plNames (vars : List (String × NdArray)) : List String :=
  vars.flatMap (fun vp => pressure_levels.map (fun p => vp.1 ++ toString p))

/-- Python-dict insertion: overwrite in place when the key exists,
append otherwise (insertion order preserved, the semantics of the
`data_vars[var_name] = ...` loop in `merge_data`). -/
def upsert (l : List (String × NdArray)) (k : String) (v : NdArray) : List (String × NdArray) :=
  match l with
  | [] => [(k, v)]
  | (k0, v0) :: rest => if k0 = k then (k0, v) :: rest else (k0, v0) :: upsert rest k v

/-- The `data_vars` dict of the output dataset: one entry per name in
`var_names`, later occurrences of a duplicated name overwriting earlier
ones. -/
def buildDataVars (names : List String) (datas : List NdArray) : List (String × NdArray) :=
  (names.zip datas).foldl (fun acc nd => upsert acc nd.1 nd.2) []

/-- The in-memory combined output record for one timestep group: the
key (the output file is `era5_{key}.nc`), the raw `var_names` list (kept
verbatim in the `variable_list` metadata attribute), and the `data_vars`
mapping of the written dataset. -/
structure MergedRecord where
  key : String
  varNames : List String
  dataVars : List (String × NdArray)
deriving DecidableEq, Repr

/-- Output filename for a merged record, `f"era5_{datetime_str}.nc"`. -/
def MergedRecord.fileName (r : MergedRecord) : String :=
  "era5_" ++ r.key ++ ".nc"

/-- The body of the per-group `try` block up to the construction of the
output dataset: open the three sources in order (pl, sl, tp), flatten
their variables, `np.stack` the collected slices (raising on an empty
list or mismatched shapes), and build the output dataset on the
`(latitude, longitude)` grid taken from the pressure-level file (xarray
raising when some stacked slice is not 2-D of exactly that grid shape). -/
def buildRecord (key : String) (fpl fsl ftp : InputFile) : Except PyErr MergedRecord :=
  if !fpl.openOk then .error .ioError
  else
    match varsLoop flattenPlVar ([], []) fpl.ds.vars with
    | .error e => .error e
    | .ok acc1 =>
      if !fsl.openOk then .error .ioError
      else
        match varsLoop flattenSurfVar acc1 fsl.ds.vars with
        | .error e => .error e
        | .ok acc2 =>
          if !ftp.openOk then .error .ioError
          else
            match varsLoop flattenSurfVar acc2 ftp.ds.vars with
            | .error e => .error e
            | .ok acc3 =>
              match acc3.1 with
              | [] => .error .valueError
              | a0 :: rest =>
                if !(rest.all (fun b => b.shape == a0.shape)) then .error .valueError
                else if !(acc3.1.all (fun b =>
                    b.shape == [fpl.ds.latitude.length, fpl.ds.longitude.length])) then
                  .error .valueError
                else
                  .ok ⟨key, acc3.2, buildDataVars acc3.2 acc3.1⟩

/-- Observable outcome of processing one complete group: the written
record if any, whether each of the three source handles was closed, and
whether `processed_count` was incremented. -/
structure GroupOutcome where
  written : Option MergedRecord
  plClosed : Bool
  slClosed : Bool
  tpClosed : Bool
  counted : Bool
deriving DecidableEq, Repr

/-- Outcome of a group whose `try` block raised: the exception is caught
by the per-group handler, so nothing is written, the close calls (which
sit after the write inside the `try`) never run, and the count is not
incremented. -/
def failedOutcome : GroupOutcome :=
  ⟨none, false, false, false, false⟩

/-- The whole per-group `try` block for a complete group: build the
record, write it (`writeOk = false` models an I/O failure of
`to_netcdf`, modelled as atomic: on failure no file appears), then close
the three source handles and increment the count.  Any exception along
the way yields `failedOutcome`. -/
def processGroup (key : String) (fpl fsl ftp : InputFile) (writeOk : Bool) : GroupOutcome :=
  match buildRecord key fpl fsl ftp with
  | .error _ => failedOutcome
  | .ok rec =>
    if writeOk then ⟨some rec, true, true, true, true⟩ else failedOutcome

/-- The three typed pipelines. -/
inductive Kind where
  | pl
  | sl
  | tp
deriving DecidableEq, Repr

/-- One entry of the `all_files` list: `(file_type, file, datetime_str, file_dt)`. -/
structure ScannedFile where
  kind : Kind
  file : InputFile
  key : String
  dt : DateTime
deriving DecidableEq, Repr

/-- The `if start_dt and file_dt < start_dt: continue` test of the scan
loops (a missing bound never skips). -/
def beforeStart (startDt : Option DateTime) (dt : DateTime) : Bool :=
  match startDt with
  | some s => decide (dt.lin < s.lin)
  | none => false

/-- The `if end_dt and file_dt > end_dt: continue` test. -/
def afterEnd (endDt : Option DateTime) (dt : DateTime) : Bool :=
  match endDt with
  | some e => decide (e.lin < dt.lin)
  | none => false

/-- Per-file decision of the scan loops in `merge_data`: derive the key,
parse it as a date-time (a file whose key does not parse is dropped), then
skip the file when it falls before the start bound or after the end
bound. -/
def includeFile (f : InputFile) (startDt endDt : Option DateTime) : Option (String × DateTime) :=
  let key := extract_datetime_from_filename f.stem
  match parse_datetime_string key with
  | none => none
  | some dt =>
    if beforeStart startDt dt then none
    else if afterEnd endDt dt then none
    else some (key, dt)

/-- One of the three scan loops: filter a kind's file list through
`includeFile`, tagging survivors with the kind. -/
def scanKind (k : Kind) (files : List InputFile) (startDt endDt : Option DateTime) :
    List ScannedFile :=
  files.filterMap (fun f =>
    match includeFile f startDt endDt with
    | none => none
    | some (key, dt) => some ⟨k, f, key, dt⟩)

/-- A timestep group: one optional file per kind
(`{'pl': None, 'sl': None, 'tp': None}` filled in during the scan). -/
structure Group where
  pl : Option InputFile
  sl : Option InputFile
  tp : Option InputFile
deriving DecidableEq, Repr

/-- A group is complete when all three slots are filled. -/
def Group.complete (g : Group) : Bool :=
  g.pl.isSome && g.sl.isSome && g.tp.isSome

/-- Fill one slot of a group. -/
def Group.setSlot (g : Group) (k : Kind) (f : InputFile) : Group :=
  match k with
  | .pl => { g with pl := some f }
  | .sl => { g with sl := some f }
  | .tp => { g with tp := some f }

/-- Insert one scanned file into the insertion-ordered `date_groups`
mapping: update in place when the key exists (a second file of the same
kind and key overwrites the slot, last seen wins), append a fresh group
otherwise. -/
def insertGroup (gs : List (String × Group)) (key : String) (k : Kind) (f : InputFile) :
    List (String × Group) :=
  match gs with
  | [] => [(key, Group.setSlot ⟨none, none, none⟩ k f)]
  | (k0, g0) :: rest =>
    if k0 = key then (k0, g0.setSlot k f) :: rest
    else (k0, g0) :: insertGroup rest key k f

/-- The grouping fold over `all_files`. -/
def buildGroups (scanned : List ScannedFile) : List (String × Group) :=
  scanned.foldl (fun gs s => insertGroup gs s.key s.kind s.file) []

/-- Inputs of `merge_data`: the three sorted directory listings, the
optional time-bound strings, and a write oracle saying whether
`to_netcdf` succeeds for a given key. -/
structure MergeParams where
  plFiles : List InputFile
  slFiles : List InputFile
  tpFiles : List InputFile
  startTime : Option String
  endTime : Option String
  writeOk : String → Bool

/-- Result of a `merge_data` run: whether the run aborted on a malformed
time bound, the groups found, the per-group outcomes (`none` for a group
skipped as incomplete), the final `processed_count`, and the written
output records. -/
structure MergeResult where
  aborted : Bool
  groups : List (String × Group)
  outcomes : List (String × Option GroupOutcome)
  processedCount : Nat
  outputs : List MergedRecord

/-- Process one entry of `date_groups`: skip it when a slot is missing,
otherwise run the per-group `try` block. -/
def processEntry (writeOk : String → Bool) (e : String × Group) :
    String × Option GroupOutcome :=
  match e.2.pl, e.2.sl, e.2.tp with
  | some fpl, some fsl, some ftp => (e.1, some (processGroup e.1 fpl fsl ftp (writeOk e.1)))
  | _, _, _ => (e.1, none)

/-- Parsing of one optional time-bound argument, as done inline at the
top of `merge_data`: absent means no bound, present must parse in one of
the two accepted literal formats or the run aborts. -/
def parseBoundOpt (o : Option String) : Except Unit (Option DateTime) :=
  match o with
  | none => .ok none
  | some s =>
    match parse_time_bound s with
    | some dt => .ok (some dt)
    | none => .error ()

/-- The aborted result: the early `return` taken on a malformed bound,
before any file is scanned, grouped, or written. -/
def abortedResult : MergeResult :=
  ⟨true, [], [], 0, []⟩

/-- The full scan: the pl file loop, then the sl loop, then the tp loop,
concatenated into `all_files`. -/
def scanAll (p : MergeParams) (startDt endDt : Option DateTime) : List ScannedFile :=
  scanKind .pl p.plFiles startDt endDt
    ++ scanKind .sl p.slFiles startDt endDt
    ++ scanKind .tp p.tpFiles startDt endDt

/-- The scan-group-process tail of `merge_data`, reached only once both
bounds parsed: group the scanned files by key in insertion order, then
process each group in order, skipping incomplete ones and catching any
per-group exception. -/
def mergeRun (p : MergeParams) (startDt endDt : Option DateTime) : MergeResult :=
  let groups := buildGroups (scanAll p startDt endDt)
  let outcomes := groups.map (processEntry p.writeOk)
  let outputs := outcomes.filterMap (fun e => e.2.bind (fun o => o.written))
  let count := (outcomes.filterMap (fun e => e.2)).countP (fun o => o.counted)
  ⟨false, groups, outcomes, count, outputs⟩

/-- Embedding of `merge_data` from `conbine.py`: parse the optional
start bound, then (only if it succeeded) the optional end bound, aborting
the whole run when one fails to parse; otherwise run the
scan-group-process tail. -/
def merge_data (p : MergeParams) : MergeResult :=
  match parseBoundOpt p.startTime with
  | .error _ => abortedResult
  | .ok startDt =>
    match parseBoundOpt p.endTime with
    | .error _ => abortedResult
    | .ok endDt => mergeRun p startDt endDt

/-! Concrete example inputs, used to instantiate the theorems below on
closed data. -/

/-- A well-formed pressure-level variable array of shape `(1, 13, 1, 1)`. -/
def exArr4 : NdArray := ⟨[1, 13, 1, 1], (List.range 13).map Int.ofNat⟩

/-- A well-formed surface/precipitation variable array of shape `(1, 1, 1)`. -/
def exArr3 : NdArray := ⟨[1, 1, 1], [7]⟩

/-- A pressure-level variable array with 14 entries on the level axis. -/
def exArr14 : NdArray := ⟨[1, 14, 1, 1], (List.range 14).map Int.ofNat⟩

/-- Example pressure-level file with variables `t` and `z`. -/
def exPl : InputFile :=
  ⟨"era5_20180201_0000_pl", ⟨[("t", exArr4), ("z", exArr4)], [0], [0]⟩, true⟩

/-- Example surface-level file with variable `t2m`. -/
def exSl : InputFile :=
  ⟨"era5_20180201_0000_sl", ⟨[("t2m", exArr3)], [0], [0]⟩, true⟩

/-- Example precipitation file with variable `tp`. -/
def exTp : InputFile :=
  ⟨"era5_20180201_0000_tp", ⟨[("tp", exArr3)], [0], [0]⟩, true⟩

/-- Pressure-level file whose variables `t2` and `t` synthesize the same
flat name `t250` (`"t2" ++ "50"` and `"t" ++ "250"`). -/
def exPlCollide : InputFile :=
  ⟨"era5_20180201_0000_pl", ⟨[("t2", exArr4), ("t", exArr4)], [0], [0]⟩, true⟩

/-- Pressure-level file whose only variable `q` is 3-D, not 4-D. -/
def exPlSkip : InputFile :=
  ⟨"era5_20180201_0000_pl", ⟨[("q", exArr3)], [0], [0]⟩, true⟩

/-- Pressure-level file whose only variable has 14 levels. -/
def exPl14 : InputFile :=
  ⟨"era5_20180201_0000_pl", ⟨[("t", exArr14)], [0], [0]⟩, true⟩

/-- Merge parameters for the standard complete example group. -/
def exParams : MergeParams :=
  ⟨[exPl], [exSl], [exTp], none, none, fun _ => true⟩

/-- Merge parameters with a malformed start time. -/
def exParamsBadStart : MergeParams :=
  ⟨[exPl], [exSl], [exTp], some "garbage", none, fun _ => true⟩

/-- Merge parameters whose only group is incomplete (no sl or tp file). -/
def exParamsIncomplete : MergeParams :=
  ⟨[exPl], [], [], none, none, fun _ => true⟩

/-- Merge parameters whose only group has an overlong pressure-level
variable. -/
def exParams14 : MergeParams :=
  ⟨[exPl14], [exSl], [exTp], none, none, fun _ => true⟩

/-! Helper lemmas about the filename identity extractor. -/

theorem splitU_ne_nil (cs : List Char) : splitU cs ≠ [] := by
  induction cs with
  | nil => simp [splitU]
  | cons c rest ih =>
    simp only [splitU]
    split
    · simp
    · cases h : splitU rest with
      | nil => simp
      | cons t ts => simp

/-- Splitting distributes over an explicit separator occurrence. -/
theorem splitU_append_sep (xs ys : List Char) :
    splitU (xs ++ '_' :: ys) = splitU xs ++ splitU ys := by
  induction xs with
  | nil => simp [splitU]
  | cons c rest ih =>
    by_cases hc : c = '_'
    · subst hc
      simp [splitU, ih]
    · simp only [List.cons_append, splitU, if_neg hc, List.append_eq]
      rw [ih]
      cases h : splitU rest with
      | nil => exact absurd h (splitU_ne_nil rest)
      | cons t ts => simp

/-- Splitting a separator-free list yields that list as the only token. -/
theorem splitU_no_sep (xs : List Char) (h : '_' ∉ xs) : splitU xs = [xs] := by
  induction xs with
  | nil => simp [splitU]
  | cons c rest ih =>
    simp only [List.mem_cons, not_or] at h
    have hc : ¬c = '_' := fun e => h.1 e.symm
    simp [splitU, if_neg hc, ih h.2]

/-- Joining with underscores undoes `splitU` (the Python
`'_'.join(name.split('_')) == name` identity). -/
theorem intercalate_splitU (cs : List Char) :
    List.intercalate ['_'] (splitU cs) = cs := by
  induction cs with
  | nil => simp [splitU, List.intercalate]
  | cons c rest ih =>
    by_cases hc : c = '_'
    · subst hc
      simp only [splitU, if_pos rfl]
      cases h : splitU rest with
      | nil => exact absurd h (splitU_ne_nil rest)
      | cons t ts =>
        rw [h] at ih
        simp only [List.intercalate, List.intersperse] at ih ⊢
        simpa using ih
    · simp only [splitU, if_neg hc]
      cases h : splitU rest with
      | nil => exact absurd h (splitU_ne_nil rest)
      | cons t ts =>
        rw [h] at ih
        cases ts with
        | nil => simpa [List.intercalate, List.intersperse] using ih
        | cons t2 ts2 =>
          simp only [List.intercalate, List.intersperse] at ih ⊢
          simpa using ih

theorem isdigitL_no_underscore {cs : List Char} (h : isdigitL cs = true) : '_' ∉ cs := by
  intro hm
  simp only [isdigitL, Bool.and_eq_true, List.all_eq_true] at h
  have := h.2 '_' hm
  simp [Char.isDigit] at this

theorem scanTok_skip {p : List Char} (h8 : is8Digit p = false) (h4 : is4Digit p = false)
    (acc : Option (List Char) × Option (List Char)) : scanTok acc p = acc := by
  simp [scanTok, h8, h4]

theorem foldl_scanTok_skip {l : List (List Char)}
    (h : ∀ p ∈ l, is8Digit p = false ∧ is4Digit p = false)
    (acc : Option (List Char) × Option (List Char)) : l.foldl scanTok acc = acc := by
  induction l generalizing acc with
  | nil => rfl
  | cons p rest ih =>
    have hp := h p (by simp)
    simp only [List.foldl_cons, scanTok_skip hp.1 hp.2]
    exact ih (fun q hq => h q (by simp [hq])) acc

theorem is8Digit_of_is4Digit {p : List Char} (h : is4Digit p = true) : is8Digit p = false := by
  simp only [is4Digit, Bool.and_eq_true, beq_iff_eq] at h
  simp [is8Digit, h.1]

theorem string_mk_toList (s : String) : (⟨s.toList⟩ : String) = s := rfl

theorem extractKey_era5 {d t sfx : List Char}
    (hd : is8Digit d = true) (ht : is4Digit t = true)
    (hs : ∀ p ∈ splitU sfx, is8Digit p = false ∧ is4Digit p = false) :
    extractKey ('e' :: 'r' :: 'a' :: '5' :: '_' :: (d ++ '_' :: (t ++ '_' :: sfx)))
      = d ++ '_' :: t := by
  have hd' : '_' ∉ d := isdigitL_no_underscore (by
    simp only [is8Digit, Bool.and_eq_true] at hd; exact hd.2)
  have ht' : '_' ∉ t := isdigitL_no_underscore (by
    simp only [is4Digit, Bool.and_eq_true] at ht; exact ht.2)
  have hsplit : splitU ('e' :: 'r' :: 'a' :: '5' :: '_' :: (d ++ '_' :: (t ++ '_' :: sfx)))
      = ['e', 'r', 'a', '5'] :: d :: t :: splitU sfx := by
    have h1 : 'e' :: 'r' :: 'a' :: '5' :: '_' :: (d ++ '_' :: (t ++ '_' :: sfx))
        = ['e', 'r', 'a', '5'] ++ '_' :: (d ++ '_' :: (t ++ '_' :: sfx)) := rfl
    rw [h1, splitU_append_sep, splitU_append_sep, splitU_append_sep,
      splitU_no_sep _ (by decide), splitU_no_sep _ hd', splitU_no_sep _ ht']
    rfl
  have hfold : (['e', 'r', 'a', '5'] :: d :: t :: splitU sfx).foldl scanTok (none, none)
      = (some d, some t) := by
    rw [List.foldl_cons, scanTok_skip (by decide) (by decide), List.foldl_cons]
    have h2 : scanTok (none, none) d = (some d, none) := by simp [scanTok, hd]
    have h3 : scanTok (some d, none) t = (some d, some t) := by
      simp [scanTok, is8Digit_of_is4Digit ht, ht]
    rw [h2, List.foldl_cons, h3, foldl_scanTok_skip hs]
  simp [extractKey, hsplit, hfold]

theorem extractKey_strip {pre sfx : List Char}
    (hsfx : sfx = ['p', 'l'] ∨ sfx = ['s', 'l'] ∨ sfx = ['t', 'p'])
    (h : ∀ p ∈ splitU (pre ++ '_' :: sfx), is8Digit p = false ∧ is4Digit p = false) :
    extractKey (pre ++ '_' :: sfx) = pre := by
  have hnu : '_' ∉ sfx := by rcases hsfx with h1 | h1 | h1 <;> subst h1 <;> decide
  have hsp : splitU (pre ++ '_' :: sfx) = splitU pre ++ [sfx] := by
    rw [splitU_append_sep, splitU_no_sep sfx hnu]
  have hfold := foldl_scanTok_skip h ((none, none) :
    Option (List Char) × Option (List Char))
  have hsuffix : (['_', 'p', 'l'].isSuffixOf (pre ++ '_' :: sfx)
      || ['_', 's', 'l'].isSuffixOf (pre ++ '_' :: sfx)
      || ['_', 't', 'p'].isSuffixOf (pre ++ '_' :: sfx)) = true := by
    rcases hsfx with h1 | h1 | h1 <;> subst h1 <;>
      simp [List.isSuffixOf_iff_suffix, List.suffix_append]
  simp only [extractKey]
  rw [hfold]
  simp only [hsuffix, if_true]
  rw [hsp, List.dropLast_concat, intercalate_splitU]

theorem extractKey_unchanged {name : List Char}
    (h : ∀ p ∈ splitU name, is8Digit p = false ∧ is4Digit p = false)
    (hns : (['_', 'p', 'l'].isSuffixOf name
      || ['_', 's', 'l'].isSuffixOf name
      || ['_', 't', 'p'].isSuffixOf name) = false) :
    extractKey name = name := by
  have hfold := foldl_scanTok_skip h ((none, none) :
    Option (List Char) × Option (List Char))
  simp only [extractKey]
  rw [hfold]
  simp [hns]

/-- Claim C2, counterexample: for the filename `era5_20180101_0000_1234.nc`
(of the form `era5_{8digits}_{4digits}_{suffix}.nc` with suffix `1234`),
identity extraction does not return `{8digits}_{4digits}`: the token scan
keeps the last 4-digit numeric token, so the suffix overrides the time
part and the result is `20180101_1234`. -/
theorem c2_extract_identity_counterexample :
    extract_datetime_from_filename "era5_20180101_0000_1234" = "20180101_1234"
    ∧ extract_datetime_from_filename "era5_20180101_0000_1234" ≠ "20180101_0000" := by
  exact ⟨by decide, by decide⟩

/-- Claim C2 (amended): for every filename of the form
`era5_{8digits}_{4digits}_{suffix}.nc` in which no underscore-separated
token of the suffix is itself an 8-digit or 4-digit numeric token,
identity extraction returns exactly `{8digits}_{4digits}`; for every
filename lacking both an 8-digit and a 4-digit numeric token whose stem
ends in `_pl`, `_sl`, or `_tp`, it returns the stem with that suffix
stripped; for every filename lacking both tokens and not ending in such a
suffix, it returns the stem unchanged; and it is total. -/
theorem c2_extract_identity_amended :
    (∀ d t sfx : String, is8Digit d.toList = true → is4Digit t.toList = true →
      (∀ p ∈ splitU sfx.toList, is8Digit p = false ∧ is4Digit p = false) →
      extract_datetime_from_filename ("era5_" ++ d ++ "_" ++ t ++ "_" ++ sfx)
        = d ++ "_" ++ t)
    ∧ (∀ (pre : String) (sfx : List Char),
      (sfx = ['p', 'l'] ∨ sfx = ['s', 'l'] ∨ sfx = ['t', 'p']) →
      (∀ p ∈ splitU (pre.toList ++ '_' :: sfx), is8Digit p = false ∧ is4Digit p = false) →
      extract_datetime_from_filename (pre ++ ⟨'_' :: sfx⟩) = pre)
    ∧ (∀ stem : String,
      (∀ p ∈ splitU stem.toList, is8Digit p = false ∧ is4Digit p = false) →
      (['_', 'p', 'l'].isSuffixOf stem.toList || ['_', 's', 'l'].isSuffixOf stem.toList
        || ['_', 't', 'p'].isSuffixOf stem.toList) = false →
      extract_datetime_from_filename stem = stem)
    ∧ (∀ stem : String, ∃ out : String, extract_datetime_from_filename stem = out) := by
  refine ⟨?_, ?_, ?_, fun stem => ⟨_, rfl⟩⟩
  · intro d t sfx hd ht hs
    have hl : ("era5_" ++ d ++ "_" ++ t ++ "_" ++ sfx).toList
        = 'e' :: 'r' :: 'a' :: '5' :: '_' :: (d.toList ++ '_' :: (t.toList ++ '_' :: sfx.toList)) := by
      simp only [String.toList, String.data_append, List.append_assoc]
      rfl
    show (⟨extractKey (("era5_" ++ d ++ "_" ++ t ++ "_" ++ sfx).toList)⟩ : String)
      = d ++ "_" ++ t
    rw [hl, extractKey_era5 hd ht hs]
    have hdata : d.toList ++ '_' :: t.toList = (d ++ "_" ++ t).data := by
      simp only [String.data_append, List.append_assoc]
      rfl
    rw [hdata]
  · intro pre sfx hsfx hs
    show (⟨extractKey ((pre ++ (⟨'_' :: sfx⟩ : String)).toList)⟩ : String) = pre
    have hl2 : (pre ++ (⟨'_' :: sfx⟩ : String)).toList = pre.toList ++ '_' :: sfx := rfl
    rw [hl2, extractKey_strip hsfx hs]
    exact string_mk_toList pre
  · intro stem hs hns
    show (⟨extractKey stem.toList⟩ : String) = stem
    rw [extractKey_unchanged hs hns]
    exact string_mk_toList stem

/-- Claim C2, witness: the amended theorem applied at concrete filenames,
one per clause. -/
theorem c2_extract_identity_witness :
    extract_datetime_from_filename "era5_20180101_0000_pl" = "20180101_0000"
    ∧ extract_datetime_from_filename "abc_qr_pl" = "abc_qr"
    ∧ extract_datetime_from_filename "abcqr" = "abcqr" := by
  have h1 := c2_extract_identity_amended.1 "20180101" "0000" "pl"
    (by decide) (by decide) (by decide)
  have h2 := c2_extract_identity_amended.2.1 "abc_qr" ['p', 'l'] (Or.inl rfl) (by decide)
  have h3 := c2_extract_identity_amended.2.2.1 "abcqr" (by decide) (by decide)
  refine ⟨?_, ?_, h3⟩
  · rw [show ("era5_20180101_0000_pl" : String)
        = "era5_" ++ "20180101" ++ "_" ++ "0000" ++ "_" ++ "pl" by decide, h1]
    decide
  · rw [show ("abc_qr_pl" : String) = "abc_qr" ++ (⟨'_' :: ['p', 'l']⟩ : String) by decide, h2]

theorem beforeStart_false_iff (sd : Option DateTime) (dt : DateTime) :
    beforeStart sd dt = false ↔ ∀ s ∈ sd, s.lin ≤ dt.lin := by
  cases sd <;> simp [beforeStart, Nat.not_lt]

theorem afterEnd_false_iff (ed : Option DateTime) (dt : DateTime) :
    afterEnd ed dt = false ↔ ∀ e ∈ ed, dt.lin ≤ e.lin := by
  cases ed <;> simp [afterEnd, Nat.not_lt]

theorem includeFile_some_iff (f : InputFile) (sd ed : Option DateTime) (key : String)
    (dt : DateTime) :
    includeFile f sd ed = some (key, dt)
    ↔ key = extract_datetime_from_filename f.stem
      ∧ parse_datetime_string (extract_datetime_from_filename f.stem) = some dt
      ∧ (∀ s ∈ sd, s.lin ≤ dt.lin) ∧ (∀ e ∈ ed, dt.lin ≤ e.lin) := by
  rw [← beforeStart_false_iff, ← afterEnd_false_iff]
  simp only [includeFile]
  cases hp : parse_datetime_string (extract_datetime_from_filename f.stem) with
  | none => simp
  | some dt0 =>
    constructor
    · intro h0
      replace h0 : (if beforeStart sd dt0 then none
          else if afterEnd ed dt0 then none
          else some (extract_datetime_from_filename f.stem, dt0)) = some (key, dt) := h0
      by_cases c1 : beforeStart sd dt0 = true
      · rw [if_pos c1] at h0; cases h0
      · rw [if_neg c1] at h0
        by_cases c2 : afterEnd ed dt0 = true
        · rw [if_pos c2] at h0; cases h0
        · rw [if_neg c2] at h0
          injection h0 with h2
          rw [Prod.mk.injEq] at h2
          obtain ⟨h3, h4⟩ := h2
          subst h3
          subst h4
          exact ⟨rfl, rfl, Bool.not_eq_true _ ▸ c1, Bool.not_eq_true _ ▸ c2⟩
    · rintro ⟨hk, hdt, hc1, hc2⟩
      injection hdt with hdt2
      subst hdt2
      subst hk
      show (if beforeStart sd dt0 then none
          else if afterEnd ed dt0 then none
          else some (extract_datetime_from_filename f.stem, dt0))
        = some (extract_datetime_from_filename f.stem, dt0)
      rw [if_neg (by rw [hc1]; exact Bool.false_ne_true),
        if_neg (by rw [hc2]; exact Bool.false_ne_true)]

/-- Claim C3: a scanned file is included in the grouping scan iff its
derived key parses as a date-time and (no start bound or its date-time is
at least the start) and (no end bound or its date-time is at most the
end), inclusive on both ends; in particular a file whose key fails to
parse is excluded entirely (and the scan is a total function, so nothing
is raised).  `scanKind` is exactly the per-kind scan loop `merge_data`
runs before grouping. -/
theorem c3_temporal_filter_inclusion :
    ∀ (k : Kind) (files : List InputFile) (sd ed : Option DateTime) (f : InputFile),
      (∃ s ∈ scanKind k files sd ed, s.file = f)
      ↔ f ∈ files
        ∧ ∃ dt, parse_datetime_string (extract_datetime_from_filename f.stem) = some dt
          ∧ (∀ s ∈ sd, s.lin ≤ dt.lin) ∧ (∀ e ∈ ed, dt.lin ≤ e.lin) := by
  intro k files sd ed f
  constructor
  · rintro ⟨s, hs, hf⟩
    simp only [scanKind, List.mem_filterMap] at hs
    obtain ⟨a, ha, hg⟩ := hs
    cases hi : includeFile a sd ed with
    | none => rw [hi] at hg; cases hg
    | some kd =>
      obtain ⟨key, dt⟩ := kd
      rw [hi] at hg
      obtain ⟨hkey, hparse, hsd, hed⟩ := (includeFile_some_iff a sd ed key dt).mp hi
      cases hg
      subst hf
      exact ⟨ha, dt, hparse, hsd, hed⟩
  · rintro ⟨hf, dt, hparse, hsd, hed⟩
    refine ⟨⟨k, f, extract_datetime_from_filename f.stem, dt⟩, ?_, rfl⟩
    simp only [scanKind, List.mem_filterMap]
    refine ⟨f, hf, ?_⟩
    rw [(includeFile_some_iff f sd ed (extract_datetime_from_filename f.stem) dt).mpr
      ⟨rfl, hparse, hsd, hed⟩]

/-! Lemmas about the top-level run skeleton. -/

theorem parseBoundOpt_error_iff (o : Option String) :
    parseBoundOpt o = .error () ↔ ∃ s, o = some s ∧ parse_time_bound s = none := by
  cases o with
  | none => simp [parseBoundOpt]
  | some s => cases hp : parse_time_bound s <;> simp [parseBoundOpt, hp]

theorem mergeRun_aborted (p : MergeParams) (sd ed : Option DateTime) :
    (mergeRun p sd ed).aborted = false := rfl

theorem merge_data_aborted_iff (p : MergeParams) :
    (merge_data p).aborted = true
    ↔ parseBoundOpt p.startTime = .error () ∨ parseBoundOpt p.endTime = .error () := by
  unfold merge_data
  cases h1 : parseBoundOpt p.startTime with
  | error e =>
    cases e
    exact ⟨fun _ => Or.inl rfl, fun _ => rfl⟩
  | ok sd =>
    cases h2 : parseBoundOpt p.endTime with
    | error e =>
      cases e
      exact ⟨fun _ => Or.inr rfl, fun _ => rfl⟩
    | ok ed =>
      constructor
      · intro hfalse
        replace hfalse : (mergeRun p sd ed).aborted = true := hfalse
        rw [mergeRun_aborted] at hfalse
        exact absurd hfalse (by simp)
      · rintro (h | h) <;> exact Except.noConfusion h

theorem merge_data_abort_eq (p : MergeParams) (h : (merge_data p).aborted = true) :
    merge_data p = abortedResult := by
  unfold merge_data at h ⊢
  cases h1 : parseBoundOpt p.startTime with
  | error e => rfl
  | ok sd =>
    rw [h1] at h
    cases h2 : parseBoundOpt p.endTime with
    | error e => rfl
    | ok ed =>
      rw [h2] at h
      replace h : (mergeRun p sd ed).aborted = true := h
      rw [mergeRun_aborted] at h
      exact absurd h (by simp)

/-- Claim C8: a start-time or end-time argument matching neither accepted
literal format aborts the merge before any group is processed and before
any output is written, and a malformed bound is the only way the run
aborts (the abort flag holds exactly when a present bound fails to
parse). -/
theorem c8_bad_time_bound_fatal :
    ∀ p : MergeParams,
      ((merge_data p).aborted = true
        ↔ (∃ s, p.startTime = some s ∧ parse_time_bound s = none)
          ∨ (∃ s, p.endTime = some s ∧ parse_time_bound s = none))
      ∧ ((merge_data p).aborted = true →
        (merge_data p).groups = [] ∧ (merge_data p).outcomes = []
          ∧ (merge_data p).outputs = [] ∧ (merge_data p).processedCount = 0) := by
  intro p
  constructor
  · rw [merge_data_aborted_iff, parseBoundOpt_error_iff, parseBoundOpt_error_iff]
  · intro h
    rw [merge_data_abort_eq p h]
    exact ⟨rfl, rfl, rfl, rfl⟩

/-- Claim C8, witness: with start time `"garbage"` the run aborts with no
groups, outcomes, outputs, or count. -/
theorem c8_bad_time_bound_fatal_witness :
    (merge_data exParamsBadStart).aborted = true
    ∧ (merge_data exParamsBadStart).outputs = []
    ∧ (merge_data exParamsBadStart).processedCount = 0 := by
  have h := c8_bad_time_bound_fatal exParamsBadStart
  have ha : (merge_data exParamsBadStart).aborted = true :=
    h.1.mpr (Or.inl ⟨"garbage", rfl, by decide⟩)
  exact ⟨ha, (h.2 ha).2.2.1, (h.2 ha).2.2.2⟩

/-- Claim C9: the merge is a deterministic function of its inputs — two
runs over the same unchanged input set (same three listings, same bounds,
same write behavior) produce the same output records, hence the same flat
variable names and values per output key, and the same
successfully-merged count. -/
theorem c9_merge_idempotent :
    ∀ p q : MergeParams,
      p.plFiles = q.plFiles → p.slFiles = q.slFiles → p.tpFiles = q.tpFiles →
      p.startTime = q.startTime → p.endTime = q.endTime → p.writeOk = q.writeOk →
      (merge_data p).outputs = (merge_data q).outputs
      ∧ (merge_data p).processedCount = (merge_data q).processedCount := by
  intro p q h1 h2 h3 h4 h5 h6
  obtain ⟨a1, a2, a3, a4, a5, a6⟩ := p
  obtain ⟨b1, b2, b3, b4, b5, b6⟩ := q
  cases h1
  cases h2
  cases h3
  cases h4
  cases h5
  cases h6
  exact ⟨rfl, rfl⟩

/-- Claim C9, witness: the determinism theorem applied to two identical
runs over the standard example inputs. -/
theorem c9_merge_idempotent_witness :
    (merge_data exParams).outputs = (merge_data exParams).outputs
    ∧ (merge_data exParams).processedCount = (merge_data exParams).processedCount :=
  c9_merge_idempotent exParams exParams rfl rfl rfl rfl rfl rfl

/-! Lemmas about grouping and per-group processing. -/

theorem mergeRun_groups (p : MergeParams) (sd ed : Option DateTime) :
    (mergeRun p sd ed).groups = buildGroups (scanAll p sd ed) := rfl

theorem mergeRun_outcomes (p : MergeParams) (sd ed : Option DateTime) :
    (mergeRun p sd ed).outcomes
      = (buildGroups (scanAll p sd ed)).map (processEntry p.writeOk) := rfl

theorem mergeRun_outputs (p : MergeParams) (sd ed : Option DateTime) :
    (mergeRun p sd ed).outputs
      = ((buildGroups (scanAll p sd ed)).map (processEntry p.writeOk)).filterMap
          (fun e => e.2.bind (fun o => o.written)) := rfl

theorem merge_data_cases (p : MergeParams) :
    merge_data p = abortedResult ∨ ∃ sd ed, merge_data p = mergeRun p sd ed := by
  unfold merge_data
  cases parseBoundOpt p.startTime with
  | error e => exact Or.inl rfl
  | ok sd =>
    cases parseBoundOpt p.endTime with
    | error e => exact Or.inl rfl
    | ok ed => exact Or.inr ⟨sd, ed, rfl⟩

theorem insertGroup_keys (gs : List (String × Group)) (key : String) (k : Kind)
    (f : InputFile) :
    (insertGroup gs key k f).map Prod.fst
      = if key ∈ gs.map Prod.fst then gs.map Prod.fst
        else gs.map Prod.fst ++ [key] := by
  induction gs with
  | nil => simp [insertGroup]
  | cons e rest ih =>
    obtain ⟨k0, g0⟩ := e
    by_cases hk : k0 = key
    · subst hk
      simp [insertGroup]
    · have hk2 : ¬key = k0 := fun e2 => hk e2.symm
      simp only [insertGroup, if_neg hk, List.map_cons, ih, List.mem_cons, hk2,
        false_or]
      split <;> simp

theorem buildGroups_keys_nodup (scanned : List ScannedFile) :
    ((buildGroups scanned).map Prod.fst).Nodup := by
  have main : ∀ (s : List ScannedFile) (gs : List (String × Group)),
      (gs.map Prod.fst).Nodup
      → ((s.foldl (fun gs x => insertGroup gs x.key x.kind x.file) gs).map Prod.fst).Nodup := by
    intro s
    induction s with
    | nil => intro gs h; exact h
    | cons x rest ih =>
      intro gs h
      apply ih
      rw [insertGroup_keys]
      by_cases hm : x.key ∈ gs.map Prod.fst
      · rw [if_pos hm]; exact h
      · rw [if_neg hm]
        simp [List.nodup_append, h, hm]
  exact main scanned [] (by simp)

theorem assoc_keys_unique {gs : List (String × Group)} (hnd : (gs.map Prod.fst).Nodup)
    {k : String} {a b : Group} (ha : (k, a) ∈ gs) (hb : (k, b) ∈ gs) : a = b := by
  induction gs with
  | nil => cases ha
  | cons e rest ih =>
    obtain ⟨k0, g0⟩ := e
    rw [List.map_cons, List.nodup_cons] at hnd
    rcases List.mem_cons.mp ha with ha0 | ha0 <;> rcases List.mem_cons.mp hb with hb0 | hb0
    · rw [Prod.mk.injEq] at ha0 hb0
      rw [ha0.2, hb0.2]
    · rw [Prod.mk.injEq] at ha0
      obtain ⟨hk, _⟩ := ha0
      subst hk
      exact absurd (List.mem_map_of_mem Prod.fst hb0) hnd.1
    · rw [Prod.mk.injEq] at hb0
      obtain ⟨hk, _⟩ := hb0
      subst hk
      exact absurd (List.mem_map_of_mem Prod.fst ha0) hnd.1
    · exact ih hnd.2 ha0 hb0

theorem processEntry_incomplete {key : String} {g : Group} (w : String → Bool)
    (h : g.pl = none ∨ g.sl = none ∨ g.tp = none) :
    processEntry w (key, g) = (key, none) := by
  obtain ⟨gp, gs2, gt⟩ := g
  rcases h with h | h | h <;> simp only at h <;> subst h
  · rfl
  · cases gp <;> rfl
  · cases gp <;> cases gs2 <;> rfl

theorem processEntry_complete {key : String} {g : Group} {f1 f2 f3 : InputFile}
    (w : String → Bool)
    (h1 : g.pl = some f1) (h2 : g.sl = some f2) (h3 : g.tp = some f3) :
    processEntry w (key, g) = (key, some (processGroup key f1 f2 f3 (w key))) := by
  obtain ⟨gp, gs2, gt⟩ := g
  simp only at h1 h2 h3
  subst h1
  subst h2
  subst h3
  rfl

theorem buildRecord_ok_key {key : String} {f1 f2 f3 : InputFile} {r : MergedRecord}
    (h : buildRecord key f1 f2 f3 = .ok r) : r.key = key := by
  unfold buildRecord at h
  repeat' split at h
  all_goals try exact Except.noConfusion h
  injection h with h2
  rw [← h2]

theorem processGroup_written_key {key : String} {f1 f2 f3 : InputFile} {w : Bool}
    {r : MergedRecord} (h : (processGroup key f1 f2 f3 w).written = some r) :
    r.key = key ∧ (processGroup key f1 f2 f3 w).counted = true := by
  unfold processGroup at h ⊢
  cases hb : buildRecord key f1 f2 f3 with
  | error e => rw [hb] at h; exact Option.noConfusion h
  | ok r0 =>
    rw [hb] at h
    cases w with
    | false => exact Option.noConfusion h
    | true =>
      replace h : some r0 = some r := h
      injection h with h2
      subst h2
      exact ⟨buildRecord_ok_key hb, rfl⟩

theorem processGroup_failed_written {key : String} {f1 f2 f3 : InputFile} {w : Bool}
    (h : (processGroup key f1 f2 f3 w).counted = false) :
    (processGroup key f1 f2 f3 w).written = none := by
  unfold processGroup at h ⊢
  cases hb : buildRecord key f1 f2 f3 with
  | error e => rfl
  | ok r0 =>
    rw [hb] at h
    cases w with
    | false => rfl
    | true =>
      replace h : true = false := h
      exact absurd h (by simp)

/-- Claim C4: a timestep key whose group is missing at least one of the
three kinds is never merged — its outcome entry is `none` (the group is
skipped before the `try` block) and no output record carries that key, so
no output file `era5_{key}.nc` is created for it. -/
theorem c4_incomplete_groups_never_merged :
    ∀ (p : MergeParams) (key : String) (g : Group),
      (key, g) ∈ (merge_data p).groups →
      (g.pl = none ∨ g.sl = none ∨ g.tp = none) →
      (key, (none : Option GroupOutcome)) ∈ (merge_data p).outcomes
      ∧ ∀ rec ∈ (merge_data p).outputs, rec.key ≠ key := by
  intro p key g hmem hincomp
  rcases merge_data_cases p with hcase | ⟨sd, ed, hcase⟩
  · rw [hcase] at hmem
    exact absurd hmem (by simp [abortedResult])
  · rw [hcase] at hmem ⊢
    rw [mergeRun_groups] at hmem
    constructor
    · rw [mergeRun_outcomes]
      have hpe := @processEntry_incomplete key g p.writeOk hincomp
      exact hpe ▸ List.mem_map_of_mem _ hmem
    · intro rec hrec hkeq
      rw [mergeRun_outputs, List.mem_filterMap] at hrec
      obtain ⟨e, he, hbind⟩ := hrec
      rw [List.mem_map] at he
      obtain ⟨⟨key2, g2⟩, hg2, hpe⟩ := he
      cases hp2 : g2.pl with
      | none =>
        rw [← hpe, processEntry_incomplete _ (Or.inl hp2)] at hbind
        exact Option.noConfusion hbind
      | some f1 =>
        cases hp3 : g2.sl with
        | none =>
          rw [← hpe, processEntry_incomplete _ (Or.inr (Or.inl hp3))] at hbind
          exact Option.noConfusion hbind
        | some f2 =>
          cases hp4 : g2.tp with
          | none =>
            rw [← hpe, processEntry_incomplete _ (Or.inr (Or.inr hp4))] at hbind
            exact Option.noConfusion hbind
          | some f3 =>
            rw [← hpe, processEntry_complete _ hp2 hp3 hp4] at hbind
            replace hbind : (processGroup key2 f1 f2 f3 (p.writeOk key2)).written
                = some rec := hbind
            have hk := (processGroup_written_key hbind).1
            have hkk : key2 = key := by rw [← hk, hkeq]
            subst hkk
            have hnd := buildGroups_keys_nodup (scanAll p sd ed)
            have hgg : g = g2 := assoc_keys_unique hnd hmem hg2
            subst hgg
            rcases hincomp with h | h | h
            · rw [h] at hp2; exact Option.noConfusion hp2
            · rw [h] at hp3; exact Option.noConfusion hp3
            · rw [h] at hp4; exact Option.noConfusion hp4

/-- Claim C4, witness: with only a pressure-level file present, the single
group is skipped with a `none` outcome and no output carries its key. -/
theorem c4_incomplete_groups_never_merged_witness :
    ("20180201_0000", (none : Option GroupOutcome))
      ∈ (merge_data exParamsIncomplete).outcomes
    ∧ ∀ rec ∈ (merge_data exParamsIncomplete).outputs, rec.key ≠ "20180201_0000" :=
  c4_incomplete_groups_never_merged exParamsIncomplete "20180201_0000"
    ⟨some exPl, none, none⟩ (by decide) (Or.inr (Or.inl rfl))

/-! Lemmas about the variable flatten step. -/

theorem levelLoop_append (v : String) (d : NdArray) (acc : FlatAcc) (l1 l2 : List Nat) :
    levelLoop v d acc (l1 ++ l2)
      = match levelLoop v d acc l1 with
        | .error e => .error e
        | .ok acc2 => levelLoop v d acc2 l2 := by
  induction l1 generalizing acc with
  | nil => rfl
  | cons i rest ih =>
    simp only [List.cons_append, levelLoop]
    cases pressure_levels.get? i with
    | none => rfl
    | some p => exact ih _

theorem levelLoop_ok (v : String) (d : NdArray) (acc : FlatAcc) (n : Nat) (h : n ≤ 13) :
    levelLoop v d acc (List.range n)
      = .ok (acc.1 ++ (List.range n).map (fun i => d.index0 i),
          acc.2 ++ (pressure_levels.take n).map (fun p => v ++ toString p)) := by
  induction n generalizing acc with
  | zero => simp [levelLoop, List.range_zero]
  | succ m ih =>
    rw [List.range_succ, levelLoop_append, ih acc (Nat.le_of_succ_le h)]
    have hm : m < pressure_levels.length := by
      simp only [pressure_levels, List.length]
      omega
    have hget : pressure_levels.get? m = some pressure_levels[m] := by
      rw [List.get?_eq_getElem?, List.getElem?_eq_getElem hm]
    simp only [levelLoop, hget, List.map_append, List.take_succ,
      List.get?_eq_getElem?, List.getElem?_eq_getElem hm]
    simp [List.append_assoc]

theorem levelLoop_overflow (v : String) (d : NdArray) (acc : FlatAcc) (n : Nat)
    (h : 13 < n) :
    levelLoop v d acc (List.range n) = .error .indexError := by
  obtain ⟨k, rfl⟩ : ∃ k, n = 14 + k := ⟨n - 14, by omega⟩
  rw [List.range_add, levelLoop_append]
  have h14 : (14 : Nat) = 13 + 1 := rfl
  rw [h14, List.range_succ, levelLoop_append, levelLoop_ok v d acc 13 (Nat.le_refl 13)]
  rfl

theorem flattenPlVar_ok (v : String) (H W : Nat) (dat : List Int) (acc : FlatAcc) :
    flattenPlVar v ⟨[1, 13, H, W], dat⟩ acc
      = .ok (acc.1 ++ (List.range 13).map (fun i => NdArray.index0 ⟨[13, H, W], dat⟩ i),
          acc.2 ++ pressure_levels.map (fun p => v ++ toString p)) := by
  have h : flattenPlVar v ⟨[1, 13, H, W], dat⟩ acc
      = levelLoop v ⟨[13, H, W], dat⟩ acc (List.range 13) := rfl
  rw [h, levelLoop_ok v _ acc 13 (Nat.le_refl 13)]
  rfl

theorem flattenPlVar_skip (v : String) (a : NdArray) (acc : FlatAcc)
    (h : a.ndim ≠ 4) : flattenPlVar v a acc = .ok acc := by
  have hb : (a.ndim == 4) = false := by simp [h]
  simp [flattenPlVar, hb]

theorem flattenSurfVar_ok (v : String) (H W : Nat) (dat : List Int) (acc : FlatAcc) :
    flattenSurfVar v ⟨[1, H, W], dat⟩ acc
      = .ok (acc.1 ++ [⟨[H, W], dat⟩], acc.2 ++ [v]) := rfl

theorem flattenSurfVar_asis (v : String) (a : NdArray) (acc : FlatAcc)
    (h : a.ndim ≠ 3) : flattenSurfVar v a acc = .ok (acc.1 ++ [a], acc.2 ++ [v]) := by
  have hb : (a.ndim == 3) = false := by simp [h]
  simp [flattenSurfVar, hb]

theorem varsLoop_cons_ok {step : String → NdArray → FlatAcc → Except PyErr FlatAcc}
    {v : String} {a : NdArray} {acc acc2 : FlatAcc}
    (h : step v a acc = .ok acc2) (rest : List (String × NdArray)) :
    varsLoop step acc ((v, a) :: rest) = varsLoop step acc2 rest := by
  show (match step v a acc with
    | Except.error e => Except.error e
    | Except.ok acc2 => varsLoop step acc2 rest) = _
  rw [h]

theorem varsLoop_cons_err {step : String → NdArray → FlatAcc → Except PyErr FlatAcc}
    {v : String} {a : NdArray} {acc : FlatAcc} {e : PyErr}
    (h : step v a acc = .error e) (rest : List (String × NdArray)) :
    varsLoop step acc ((v, a) :: rest) = .error e := by
  show (match step v a acc with
    | Except.error e => Except.error e
    | Except.ok acc2 => varsLoop step acc2 rest) = _
  rw [h]

theorem varsLoop_append (step : String → NdArray → FlatAcc → Except PyErr FlatAcc)
    (acc : FlatAcc) (l1 l2 : List (String × NdArray)) :
    varsLoop step acc (l1 ++ l2)
      = match varsLoop step acc l1 with
        | .error e => .error e
        | .ok acc2 => varsLoop step acc2 l2 := by
  induction l1 generalizing acc with
  | nil => rfl
  | cons va rest ih =>
    obtain ⟨v, a⟩ := va
    simp only [List.cons_append, varsLoop]
    cases step v a acc with
    | error e => rfl
    | ok acc2 => exact ih _

theorem varsLoop_pl_ok (H W : Nat) (vars : List (String × NdArray)) (acc : FlatAcc)
    (h : ∀ va ∈ vars, va.2.shape = [1, 13, H, W]) :
    ∃ datas, varsLoop flattenPlVar acc vars = .ok (acc.1 ++ datas, acc.2 ++ plNames vars)
      ∧ (∀ a ∈ datas, a.shape = [H, W]) ∧ datas.length = 13 * vars.length := by
  induction vars generalizing acc with
  | nil => exact ⟨[], by simp [varsLoop, plNames], by simp, by simp⟩
  | cons va rest ih =>
    obtain ⟨v, a⟩ := va
    have ha : a.shape = [1, 13, H, W] := h (v, a) (by simp)
    have ha2 : a = ⟨[1, 13, H, W], a.data⟩ := by
      obtain ⟨s, d⟩ := a
      simp only at ha
      rw [ha]
    obtain ⟨datas, hrest, hshapes, hlen⟩ :=
      ih (acc.1 ++ (List.range 13).map (fun i => NdArray.index0 ⟨[13, H, W], a.data⟩ i),
          acc.2 ++ pressure_levels.map (fun p => v ++ toString p))
        (fun va hva => h va (by simp [hva]))
    refine ⟨(List.range 13).map (fun i => NdArray.index0 ⟨[13, H, W], a.data⟩ i) ++ datas,
      ?_, ?_, ?_⟩
    · rw [ha2, varsLoop_cons_ok (flattenPlVar_ok v H W a.data acc) rest, hrest]
      simp [plNames, List.append_assoc]
    · intro a2 ha2m
      rcases List.mem_append.mp ha2m with hm | hm
      · obtain ⟨i, _, rfl⟩ := List.mem_map.mp hm
        rfl
      · exact hshapes a2 hm
    · simp [hlen, List.length_append, Nat.mul_succ, Nat.mul_comm]
      omega

theorem varsLoop_surf_ok (H W : Nat) (vars : List (String × NdArray)) (acc : FlatAcc)
    (h : ∀ va ∈ vars, va.2.shape = [1, H, W]) :
    ∃ datas, varsLoop flattenSurfVar acc vars
        = .ok (acc.1 ++ datas, acc.2 ++ vars.map Prod.fst)
      ∧ (∀ a ∈ datas, a.shape = [H, W]) ∧ datas.length = vars.length := by
  induction vars generalizing acc with
  | nil => exact ⟨[], by simp [varsLoop], by simp, by simp⟩
  | cons va rest ih =>
    obtain ⟨v, a⟩ := va
    have ha : a.shape = [1, H, W] := h (v, a) (by simp)
    have ha2 : a = ⟨[1, H, W], a.data⟩ := by
      obtain ⟨s, d⟩ := a
      simp only at ha
      rw [ha]
    obtain ⟨datas, hrest, hshapes, hlen⟩ :=
      ih (acc.1 ++ [⟨[H, W], a.data⟩], acc.2 ++ [v])
        (fun va hva => h va (by simp [hva]))
    refine ⟨⟨[H, W], a.data⟩ :: datas, ?_, ?_, ?_⟩
    · rw [ha2, varsLoop_cons_ok (flattenSurfVar_ok v H W a.data acc) rest, hrest]
      simp [List.append_assoc]
    · intro a2 ha2m
      rcases List.mem_cons.mp ha2m with hm | hm
      · rw [hm]
      · exact hshapes a2 hm
    · simp [hlen]

theorem plNames_length (vars : List (String × NdArray)) :
    (plNames vars).length = 13 * vars.length := by
  induction vars with
  | nil => rfl
  | cons va rest ih =>
    have hstep : plNames (va :: rest)
        = (pressure_levels.map (fun p => va.1 ++ toString p)) ++ plNames rest := by
      simp [plNames]
    rw [hstep, List.length_append, List.length_map, ih]
    have h13 : pressure_levels.length = 13 := rfl
    rw [h13, List.length_cons]
    omega

theorem upsert_fresh (acc : List (String × NdArray)) (k : String) (v : NdArray)
    (h : k ∉ acc.map Prod.fst) : upsert acc k v = acc ++ [(k, v)] := by
  induction acc with
  | nil => rfl
  | cons e rest ih =>
    obtain ⟨k0, v0⟩ := e
    simp only [List.map_cons, List.mem_cons, not_or] at h
    have hk : ¬k0 = k := fun e2 => h.1 e2.symm
    simp only [upsert, if_neg hk, List.cons_append, ih h.2]

theorem foldl_upsert_fresh (pairs acc : List (String × NdArray))
    (hdisj : ∀ x ∈ pairs, x.1 ∉ acc.map Prod.fst)
    (hnd : (pairs.map Prod.fst).Nodup) :
    pairs.foldl (fun ac nd => upsert ac nd.1 nd.2) acc = acc ++ pairs := by
  induction pairs generalizing acc with
  | nil => simp
  | cons x rest ih =>
    obtain ⟨k, v⟩ := x
    rw [List.map_cons, List.nodup_cons] at hnd
    rw [List.foldl_cons]
    have hk : k ∉ acc.map Prod.fst := hdisj (k, v) (by simp)
    rw [upsert_fresh acc k v hk]
    rw [ih (acc ++ [(k, v)]) ?_ hnd.2]
    · simp
    · intro x hx
      rw [List.map_append, List.mem_append]
      rintro (hx1 | hx2)
      · exact hdisj x (by simp [hx]) hx1
      · simp only [List.map_cons, List.map_nil, List.mem_singleton] at hx2
        have hmem : x.1 ∈ rest.map Prod.fst := List.mem_map_of_mem Prod.fst hx
        rw [hx2] at hmem
        exact hnd.1 hmem

theorem buildDataVars_nodup (names : List String) (datas : List NdArray)
    (hnd : names.Nodup) (hlen : names.length ≤ datas.length) :
    buildDataVars names datas = names.zip datas := by
  unfold buildDataVars
  rw [foldl_upsert_fresh (names.zip datas) [] (by simp) ?_]
  · simp
  · rw [List.map_fst_zip names datas hlen]
    exact hnd

theorem buildRecord_uniform_ok (key : String) (fpl fsl ftp : InputFile) (H W : Nat)
    (ho1 : fpl.openOk = true) (ho2 : fsl.openOk = true) (ho3 : ftp.openOk = true)
    (hH : fpl.ds.latitude.length = H) (hW : fpl.ds.longitude.length = W)
    (hpl : ∀ va ∈ fpl.ds.vars, va.2.shape = [1, 13, H, W])
    (hsl : ∀ va ∈ fsl.ds.vars, va.2.shape = [1, H, W])
    (htp : ∀ va ∈ ftp.ds.vars, va.2.shape = [1, H, W])
    (hne : fpl.ds.vars ≠ [] ∨ fsl.ds.vars ≠ [] ∨ ftp.ds.vars ≠ []) :
    ∃ datas : List NdArray,
      buildRecord key fpl fsl ftp
        = .ok ⟨key,
            plNames fpl.ds.vars ++ fsl.ds.vars.map Prod.fst ++ ftp.ds.vars.map Prod.fst,
            buildDataVars
              (plNames fpl.ds.vars ++ fsl.ds.vars.map Prod.fst ++ ftp.ds.vars.map Prod.fst)
              datas⟩
      ∧ datas.length
          = (plNames fpl.ds.vars ++ fsl.ds.vars.map Prod.fst
              ++ ftp.ds.vars.map Prod.fst).length := by
  obtain ⟨d1, h1, hs1, hl1⟩ := varsLoop_pl_ok H W fpl.ds.vars ([], []) hpl
  replace h1 : varsLoop flattenPlVar ([], []) fpl.ds.vars
      = .ok (d1, plNames fpl.ds.vars) := by simpa using h1
  obtain ⟨d2, h2, hs2, hl2⟩ :=
    varsLoop_surf_ok H W fsl.ds.vars (d1, plNames fpl.ds.vars) hsl
  replace h2 : varsLoop flattenSurfVar (d1, plNames fpl.ds.vars) fsl.ds.vars
      = .ok (d1 ++ d2, plNames fpl.ds.vars ++ fsl.ds.vars.map Prod.fst) := h2
  obtain ⟨d3, h3, hs3, hl3⟩ :=
    varsLoop_surf_ok H W ftp.ds.vars
      (d1 ++ d2, plNames fpl.ds.vars ++ fsl.ds.vars.map Prod.fst) htp
  replace h3 : varsLoop flattenSurfVar
      (d1 ++ d2, plNames fpl.ds.vars ++ fsl.ds.vars.map Prod.fst) ftp.ds.vars
      = .ok (d1 ++ d2 ++ d3,
          plNames fpl.ds.vars ++ fsl.ds.vars.map Prod.fst
            ++ ftp.ds.vars.map Prod.fst) := h3
  have hall : ∀ a ∈ d1 ++ d2 ++ d3, a.shape = [H, W] := by
    intro a ha
    rcases List.mem_append.mp ha with ha' | ha'
    · rcases List.mem_append.mp ha' with ha2 | ha2
      · exact hs1 a ha2
      · exact hs2 a ha2
    · exact hs3 a ha'
  have hpos : 0 < (d1 ++ d2 ++ d3).length := by
    simp only [List.length_append]
    rcases hne with hn | hn | hn
    · have := hl1
      have h0 : 0 < fpl.ds.vars.length := List.length_pos.mpr hn
      omega
    · have h0 : 0 < fsl.ds.vars.length := List.length_pos.mpr hn
      omega
    · have h0 : 0 < ftp.ds.vars.length := List.length_pos.mpr hn
      omega
  cases hD : d1 ++ d2 ++ d3 with
  | nil => rw [hD] at hpos; simp at hpos
  | cons a0 rest =>
    have ha0 : a0.shape = [H, W] := hall a0 (by rw [hD]; simp)
    have hrest : ∀ a ∈ rest, a.shape = [H, W] := by
      intro a ha
      exact hall a (by rw [hD]; simp [ha])
    have hc1 : (rest.all fun b => b.shape == a0.shape) = true := by
      rw [List.all_eq_true]
      intro b hb
      rw [hrest b hb, ha0]
      exact beq_self_eq_true _
    have hc2 : ((a0 :: rest).all fun b =>
        b.shape == [fpl.ds.latitude.length, fpl.ds.longitude.length]) = true := by
      rw [List.all_eq_true]
      intro b hb
      have : b.shape = [H, W] := hall b (by rw [hD]; exact hb)
      rw [this, hH, hW]
      exact beq_self_eq_true _
    refine ⟨d1 ++ d2 ++ d3, ?_, ?_⟩
    · unfold buildRecord
      simp only [ho1, ho2, ho3, Bool.not_true, Bool.false_eq_true, if_false, h1, h2, h3,
        hD, hc1, hc2]
    · simp only [List.length_append, List.length_map, plNames_length]
      omega

/-- Claim C1, counterexample: a complete group meeting the claimed shape
premise (pl variables `t2` and `t` each shaped `(1, 13, 1, 1)`, surface
variable `t2m` and precipitation variable `tp` shaped `(1, 1, 1)`) whose
synthesized names collide (`"t2" ++ "50"` and `"t" ++ "250"` are both
`t250`): the claim promises 13x2+1+1 = 28 flat variables, but the output
record's variable mapping is a dict keyed by name, so it holds only 27. -/
theorem c1_merge_output_counterexample :
    ((processGroup "20180201_0000" exPlCollide exSl exTp true).written.map
      (fun r => (r.varNames.length, r.dataVars.length))) = some (28, 27) := by
  decide

/-- Claim C1 (amended): for every complete group whose pressure-level
variables are each shaped `(1, 13, lat, lon)` on the file's own grid and
whose surface/precipitation variables are each shaped `(1, lat, lon)`,
with at least one variable overall, and whose synthesized flat names are
pairwise distinct, the merge writes a record whose flat-variable mapping
has exactly `13 * #pl + #sl + #tp` entries, ordered pressure-level names
first (source-variable order, then level order, names
`{variable}{pressure_hPa}` from the fixed 13-level list), then surface
names, then precipitation names. -/
theorem c1_merge_output_variables_amended :
    ∀ (key : String) (fpl fsl ftp : InputFile) (H W : Nat),
      fpl.openOk = true → fsl.openOk = true → ftp.openOk = true →
      fpl.ds.latitude.length = H → fpl.ds.longitude.length = W →
      (∀ va ∈ fpl.ds.vars, va.2.shape = [1, 13, H, W]) →
      (∀ va ∈ fsl.ds.vars, va.2.shape = [1, H, W]) →
      (∀ va ∈ ftp.ds.vars, va.2.shape = [1, H, W]) →
      (fpl.ds.vars ≠ [] ∨ fsl.ds.vars ≠ [] ∨ ftp.ds.vars ≠ []) →
      (plNames fpl.ds.vars ++ fsl.ds.vars.map Prod.fst
        ++ ftp.ds.vars.map Prod.fst).Nodup →
      ∃ r, (processGroup key fpl fsl ftp true).written = some r
        ∧ r.varNames = plNames fpl.ds.vars ++ fsl.ds.vars.map Prod.fst
            ++ ftp.ds.vars.map Prod.fst
        ∧ r.dataVars.map Prod.fst = r.varNames
        ∧ r.dataVars.length
            = 13 * fpl.ds.vars.length + fsl.ds.vars.length + ftp.ds.vars.length
        ∧ r.key = key := by
  intro key fpl fsl ftp H W ho1 ho2 ho3 hH hW hpl hsl htp hne hnd
  obtain ⟨datas, hbr, hdl⟩ :=
    buildRecord_uniform_ok key fpl fsl ftp H W ho1 ho2 ho3 hH hW hpl hsl htp hne
  refine ⟨⟨key,
      plNames fpl.ds.vars ++ fsl.ds.vars.map Prod.fst ++ ftp.ds.vars.map Prod.fst,
      buildDataVars
        (plNames fpl.ds.vars ++ fsl.ds.vars.map Prod.fst ++ ftp.ds.vars.map Prod.fst)
        datas⟩, ?_, rfl, ?_, ?_, rfl⟩
  · unfold processGroup
    simp only [hbr, if_true]
  · simp only
    rw [buildDataVars_nodup _ _ hnd (le_of_eq hdl.symm)]
    exact List.map_fst_zip _ _ (le_of_eq hdl.symm)
  · simp only
    rw [buildDataVars_nodup _ _ hnd (le_of_eq hdl.symm), List.length_zip, hdl,
      Nat.min_self, List.length_append, List.length_append, List.length_map,
      List.length_map, plNames_length]

/-- Claim C1, witness: the amended theorem at the spec's concrete scenario
(pl vars `t`, `z`; surface var `t2m`; precipitation var `tp`) yields the
28 variables `t50..t1000, z50..z1000, t2m, tp` in order. -/
theorem c1_merge_output_variables_witness :
    ∃ r, (processGroup "20180201_0000" exPl exSl exTp true).written = some r
      ∧ r.varNames = ["t50", "t100", "t150", "t200", "t250", "t300", "t400", "t500",
          "t600", "t700", "t850", "t925", "t1000", "z50", "z100", "z150", "z200",
          "z250", "z300", "z400", "z500", "z600", "z700", "z850", "z925", "z1000",
          "t2m", "tp"]
      ∧ r.dataVars.length = 28 := by
  obtain ⟨r, hw, hn, _, hl, _⟩ :=
    c1_merge_output_variables_amended "20180201_0000" exPl exSl exTp 1 1
      rfl rfl rfl rfl rfl (by decide) (by decide) (by decide)
      (Or.inl (by decide)) (by decide)
  refine ⟨r, hw, ?_, ?_⟩
  · rw [hn]; decide
  · rw [hl]; decide

/-- Claim C5, counterexample: in a complete group whose pressure-level
file holds a single 3-D (not 4-D) variable `q`, the output flat-variable
list is `[t2m, tp]` — the mismatched pressure-level variable is dropped
entirely, not appended as-is (the append sits inside the
`if data.ndim == 4` block). -/
theorem c5_mismatched_ndim_counterexample :
    ((processGroup "20180201_0000" exPlSkip exSl exTp true).written.map
      (fun r => r.varNames)) = some ["t2m", "tp"]
    ∧ "q" ∉ ["t2m", "tp"] := ⟨by decide, by decide⟩

/-- Claim C5 (amended): a surface-level or precipitation variable whose
array is not 3-D is still appended to the flat-variable list as-is, with
no transform; but a pressure-level variable whose array is not 4-D is
skipped entirely — it contributes neither data nor names. -/
theorem c5_mismatched_ndim_amended :
    (∀ (v : String) (a : NdArray) (acc : FlatAcc), a.ndim ≠ 4 →
      flattenPlVar v a acc = .ok acc)
    ∧ (∀ (v : String) (a : NdArray) (acc : FlatAcc), a.ndim ≠ 3 →
      flattenSurfVar v a acc = .ok (acc.1 ++ [a], acc.2 ++ [v])) :=
  ⟨flattenPlVar_skip, flattenSurfVar_asis⟩

/-- Claim C5, witness: a 3-D array under the pressure-level branch is
skipped; a 4-D array under the surface branch is appended unchanged. -/
theorem c5_mismatched_ndim_witness :
    flattenPlVar "q" exArr3 ([], []) = .ok ([], [])
    ∧ flattenSurfVar "x" exArr4 ([], []) = .ok ([exArr4], ["x"]) := by
  constructor
  · exact c5_mismatched_ndim_amended.1 "q" exArr3 ([], []) (by decide)
  · have h := c5_mismatched_ndim_amended.2 "x" exArr4 ([], []) (by decide)
    simpa using h

/-- Claim C6, counterexample: a complete group whose record builds
successfully but whose write fails leaves all three source handles
unclosed — the close calls sit after the write inside the `try` block, so
a write failure skips them. -/
theorem c6_handles_counterexample :
    (buildRecord "20180201_0000" exPl exSl exTp).toOption.isSome = true
    ∧ (processGroup "20180201_0000" exPl exSl exTp false).plClosed = false
    ∧ (processGroup "20180201_0000" exPl exSl exTp false).slClosed = false
    ∧ (processGroup "20180201_0000" exPl exSl exTp false).tpClosed = false := by
  refine ⟨by decide, ?_, ?_, ?_⟩ <;> decide

/-- Claim C6 (amended): for a complete group whose record builds
successfully, the three source handles are closed when the write
succeeds, and are all left open (never closed) when the write fails —
closing happens only on the all-success path, not regardless of write
outcome. -/
theorem c6_handles_closed_amended :
    ∀ (key : String) (f1 f2 f3 : InputFile),
      (buildRecord key f1 f2 f3).toOption.isSome = true →
      ((processGroup key f1 f2 f3 true).plClosed = true
        ∧ (processGroup key f1 f2 f3 true).slClosed = true
        ∧ (processGroup key f1 f2 f3 true).tpClosed = true
        ∧ (processGroup key f1 f2 f3 false).plClosed = false
        ∧ (processGroup key f1 f2 f3 false).slClosed = false
        ∧ (processGroup key f1 f2 f3 false).tpClosed = false) := by
  intro key f1 f2 f3 hok
  unfold processGroup
  cases hb : buildRecord key f1 f2 f3 with
  | error e =>
    rw [hb] at hok
    exact absurd hok (by simp [Except.toOption])
  | ok r => exact ⟨rfl, rfl, rfl, rfl, rfl, rfl⟩

/-- Claim C6, witness: the amended theorem at the standard example
group. -/
theorem c6_handles_closed_witness :
    (processGroup "20180201_0000" exPl exSl exTp true).plClosed = true
    ∧ (processGroup "20180201_0000" exPl exSl exTp true).slClosed = true
    ∧ (processGroup "20180201_0000" exPl exSl exTp true).tpClosed = true
    ∧ (processGroup "20180201_0000" exPl exSl exTp false).plClosed = false
    ∧ (processGroup "20180201_0000" exPl exSl exTp false).slClosed = false
    ∧ (processGroup "20180201_0000" exPl exSl exTp false).tpClosed = false :=
  c6_handles_closed_amended "20180201_0000" exPl exSl exTp (by decide)

theorem processEntry_key (w : String → Bool) (key : String) (g : Group) :
    processEntry w (key, g) = (key, (processEntry w (key, g)).2) := by
  obtain ⟨gp, gs2, gt⟩ := g
  cases gp <;> cases gs2 <;> cases gt <;> rfl

theorem output_rec_source (p : MergeParams) (sd ed : Option DateTime)
    (hcase : merge_data p = mergeRun p sd ed) {rec : MergedRecord}
    (hrec : rec ∈ (merge_data p).outputs) :
    ∃ g2 f1 f2 f3, (rec.key, g2) ∈ buildGroups (scanAll p sd ed)
      ∧ g2.pl = some f1 ∧ g2.sl = some f2 ∧ g2.tp = some f3
      ∧ (processGroup rec.key f1 f2 f3 (p.writeOk rec.key)).written = some rec
      ∧ (processGroup rec.key f1 f2 f3 (p.writeOk rec.key)).counted = true := by
  rw [hcase, mergeRun_outputs, List.mem_filterMap] at hrec
  obtain ⟨e, he, hbind⟩ := hrec
  rw [List.mem_map] at he
  obtain ⟨⟨key2, g2⟩, hg2, hpe⟩ := he
  cases hp2 : g2.pl with
  | none =>
    rw [← hpe, processEntry_incomplete _ (Or.inl hp2)] at hbind
    exact Option.noConfusion hbind
  | some f1 =>
    cases hp3 : g2.sl with
    | none =>
      rw [← hpe, processEntry_incomplete _ (Or.inr (Or.inl hp3))] at hbind
      exact Option.noConfusion hbind
    | some f2 =>
      cases hp4 : g2.tp with
      | none =>
        rw [← hpe, processEntry_incomplete _ (Or.inr (Or.inr hp4))] at hbind
        exact Option.noConfusion hbind
      | some f3 =>
        rw [← hpe, processEntry_complete _ hp2 hp3 hp4] at hbind
        replace hbind : (processGroup key2 f1 f2 f3 (p.writeOk key2)).written
            = some rec := hbind
        have hkc := processGroup_written_key hbind
        rw [hkc.1]
        exact ⟨g2, f1, f2, f3, hg2, hp2, hp3, hp4, hbind, hkc.2⟩

/-- Claim C7: per-group failures never abort the batch — in a non-aborted
run every group found gets an outcome entry (the run continues past any
failed group), a group whose processing failed (was not counted) has no
written record, and every written output comes from a group whose full
flatten-and-write succeeded. -/
theorem c7_per_group_failures_contained :
    ∀ p : MergeParams, (merge_data p).aborted = false →
      ((merge_data p).outcomes.length = (merge_data p).groups.length)
      ∧ (∀ key g, (key, g) ∈ (merge_data p).groups →
          ∃ o, (key, o) ∈ (merge_data p).outcomes)
      ∧ (∀ key o, (key, some o) ∈ (merge_data p).outcomes → o.counted = false →
          o.written = none)
      ∧ (∀ rec ∈ (merge_data p).outputs,
          ∃ key o, (key, some o) ∈ (merge_data p).outcomes ∧ o.written = some rec
            ∧ o.counted = true) := by
  intro p hab
  rcases merge_data_cases p with hcase | ⟨sd, ed, hcase⟩
  · rw [hcase] at hab
    exact absurd hab (by simp [abortedResult])
  · refine ⟨?_, ?_, ?_, ?_⟩
    · rw [hcase, mergeRun_outcomes, mergeRun_groups, List.length_map]
    · intro key g hmem
      rw [hcase, mergeRun_groups] at hmem
      rw [hcase, mergeRun_outcomes]
      refine ⟨(processEntry p.writeOk (key, g)).2, ?_⟩
      rw [← processEntry_key]
      exact List.mem_map_of_mem _ hmem
    · intro key o hmem hcf
      rw [hcase, mergeRun_outcomes, List.mem_map] at hmem
      obtain ⟨⟨key2, g2⟩, hg2, hpe⟩ := hmem
      cases hp2 : g2.pl with
      | none =>
        rw [processEntry_incomplete _ (Or.inl hp2)] at hpe
        obtain ⟨h1, h2⟩ := Prod.mk.injEq .. ▸ hpe
        exact Option.noConfusion h2
      | some f1 =>
        cases hp3 : g2.sl with
        | none =>
          rw [processEntry_incomplete _ (Or.inr (Or.inl hp3))] at hpe
          obtain ⟨h1, h2⟩ := Prod.mk.injEq .. ▸ hpe
          exact Option.noConfusion h2
        | some f2 =>
          cases hp4 : g2.tp with
          | none =>
            rw [processEntry_incomplete _ (Or.inr (Or.inr hp4))] at hpe
            obtain ⟨h1, h2⟩ := Prod.mk.injEq .. ▸ hpe
            exact Option.noConfusion h2
          | some f3 =>
            rw [processEntry_complete _ hp2 hp3 hp4] at hpe
            obtain ⟨h1, h2⟩ := Prod.mk.injEq .. ▸ hpe
            injection h2 with h3
            rw [← h3] at hcf ⊢
            exact processGroup_failed_written hcf
    · intro rec hrec
      obtain ⟨g2, f1, f2, f3, hg2, hp2, hp3, hp4, hw, hc⟩ :=
        output_rec_source p sd ed hcase hrec
      refine ⟨rec.key, processGroup rec.key f1 f2 f3 (p.writeOk rec.key), ?_, hw, hc⟩
      rw [hcase, mergeRun_outcomes]
      have hm := List.mem_map_of_mem (processEntry p.writeOk) hg2
      rw [processEntry_complete _ hp2 hp3 hp4] at hm
      exact hm

/-- Claim C7, witness: the theorem applied to a run whose single group
fails in the flatten step (a 14-level pressure variable): the outcome
list still covers the group, and the failed outcome has no written
record. -/
theorem c7_per_group_failures_contained_witness :
    (merge_data exParams14).outcomes.length = (merge_data exParams14).groups.length
    ∧ failedOutcome.written = none := by
  have h := c7_per_group_failures_contained exParams14 (by decide)
  exact ⟨h.1, h.2.2.1 "20180201_0000" failedOutcome (by decide) (by decide)⟩

theorem flattenPlVar_overflow (v : String) (a : NdArray) (acc : FlatAcc)
    (L H W : Nat) (hsh : a.shape = [1, L, H, W]) (hL : 13 < L) :
    flattenPlVar v a acc = .error .indexError := by
  have ha2 : a = ⟨[1, L, H, W], a.data⟩ := by
    obtain ⟨s, d⟩ := a
    simp only at hsh
    rw [hsh]
  rw [ha2]
  have hred : flattenPlVar v ⟨[1, L, H, W], a.data⟩ acc
      = levelLoop v ⟨[L, H, W], a.data⟩ acc (List.range L) := rfl
  rw [hred]
  exact levelLoop_overflow v _ acc L hL

theorem buildRecord_pl_error (key : String) (fpl fsl ftp : InputFile) (e : PyErr)
    (ho1 : fpl.openOk = true)
    (h : varsLoop flattenPlVar ([], []) fpl.ds.vars = .error e) :
    buildRecord key fpl fsl ftp = .error e := by
  unfold buildRecord
  simp only [ho1, Bool.not_true, Bool.false_eq_true, if_false, h]

theorem processGroup_eq_failed (key : String) (f1 f2 f3 : InputFile) (w : Bool)
    (e : PyErr) (hb : buildRecord key f1 f2 f3 = .error e) :
    processGroup key f1 f2 f3 w = failedOutcome := by
  unfold processGroup
  simp only [hb]

/-- Claim C10: in a complete group whose pressure-level file contains a
4-D variable with more than 13 entries on its level axis (and whose
earlier pressure-level variables flatten without error), the hardcoded
13-entry pressure list is indexed out of bounds; the `IndexError` is
caught by the per-group handler, so the group's outcome is the failed
outcome, no output record carries its key, and every group still gets an
outcome entry (the run continues). -/
theorem c10_overlong_level_axis :
    ∀ (p : MergeParams) (key : String) (g : Group) (fpl fsl ftp : InputFile)
      (pre post : List (String × NdArray)) (v : String) (a : NdArray) (L H W : Nat),
      (merge_data p).aborted = false →
      (key, g) ∈ (merge_data p).groups →
      g.pl = some fpl → g.sl = some fsl → g.tp = some ftp →
      fpl.openOk = true →
      fpl.ds.vars = pre ++ (v, a) :: post →
      a.shape = [1, L, H, W] → 13 < L →
      (∃ acc, varsLoop flattenPlVar ([], []) pre = .ok acc) →
      (key, some failedOutcome) ∈ (merge_data p).outcomes
      ∧ (∀ rec ∈ (merge_data p).outputs, rec.key ≠ key)
      ∧ (merge_data p).outcomes.length = (merge_data p).groups.length := by
  intro p key g fpl fsl ftp pre post v a L H W hab hmem hp2 hp3 hp4 ho1 hvars hsh hL hpre
  obtain ⟨acc, hacc⟩ := hpre
  rcases merge_data_cases p with hcase | ⟨sd, ed, hcase⟩
  · rw [hcase] at hab
    exact absurd hab (by simp [abortedResult])
  · have hstep : varsLoop flattenPlVar ([], []) fpl.ds.vars
        = varsLoop flattenPlVar acc ((v, a) :: post) := by
      rw [hvars, varsLoop_append, hacc]
    have hvl : varsLoop flattenPlVar ([], []) fpl.ds.vars = .error .indexError := by
      rw [hstep, varsLoop_cons_err (flattenPlVar_overflow v a acc L H W hsh hL) post]
    have hbr := buildRecord_pl_error key fpl fsl ftp .indexError ho1 hvl
    have hpg := processGroup_eq_failed key fpl fsl ftp (p.writeOk key) .indexError hbr
    rw [hcase, mergeRun_groups] at hmem
    refine ⟨?_, ?_, ?_⟩
    · rw [hcase, mergeRun_outcomes]
      have hm := List.mem_map_of_mem (processEntry p.writeOk) hmem
      rw [processEntry_complete _ hp2 hp3 hp4, hpg] at hm
      exact hm
    · intro rec hrec hkeq
      obtain ⟨g2, f1, f2, f3, hg2, hq2, hq3, hq4, hw, hc⟩ :=
        output_rec_source p sd ed hcase hrec
      rw [hkeq] at hg2 hw
      have hnd := buildGroups_keys_nodup (scanAll p sd ed)
      have hgg : g = g2 := assoc_keys_unique hnd hmem hg2
      subst hgg
      rw [hp2] at hq2
      rw [hp3] at hq3
      rw [hp4] at hq4
      injection hq2 with hq2e
      injection hq3 with hq3e
      injection hq4 with hq4e
      rw [← hq2e, ← hq3e, ← hq4e, hpg] at hw
      exact Option.noConfusion hw
    · rw [hcase, mergeRun_outcomes, mergeRun_groups, List.length_map]

/-- Claim C10, witness: the theorem at a concrete run whose single
complete group holds the 14-level variable `t`: the group's outcome is
the failed outcome and no output carries its key. -/
theorem c10_overlong_level_axis_witness :
    ("20180201_0000", some failedOutcome) ∈ (merge_data exParams14).outcomes
    ∧ (∀ rec ∈ (merge_data exParams14).outputs, rec.key ≠ "20180201_0000")
    ∧ (merge_data exParams14).outcomes.length = (merge_data exParams14).groups.length :=
  c10_overlong_level_axis exParams14 "20180201_0000"
    ⟨some exPl14, some exSl, some exTp⟩ exPl14 exSl exTp
    [] [] "t" exArr14 14 1 1
    (by decide) (by decide) rfl rfl rfl rfl rfl rfl (by decide)
    ⟨([], []), rfl⟩

end Conbine
